import Mathlib

/-!
Verification development for the django-pandasio repository.

The repository has two halves:
* a pandas-based validation layer (`pandasio/validation/fields.py`,
  `dataframes.py`, `columns.py`, `validators.py`) that coerces raw columns,
  accumulates per-column errors and reconciles partially-valid row subsets;
* a PostgreSQL persistence layer (`pandasio/db/utils.py`, `postgresql.py`)
  that bulk-loads a validated dataframe via COPY and degrades to a single
  INSERT ... ON CONFLICT upsert on failure.

The shallow embedding below transcribes those functions over explicit data:
a pandas `Series` becomes a list of (row-index, optional value) pairs, a
`DataFrame` a list of named such columns, database side effects become an
explicit action trace, and Python exceptions become `Except`.
-/

namespace Pandasio

/-- Python's `sep.join(parts)`: empty string on an empty list, otherwise the
parts interleaved with the separator. -/
def pyJoin (sep : String) : List String → String
  | [] => ""
  | a :: as => as.foldl (fun acc b => acc ++ (sep ++ b)) a

/-! ## db/utils.py -/

/-- One Django model field, as seen by `pandasio.db.utils`: its declared name,
an optional `db_column` override, whether it is a relation (foreign key), and
whether it is nullable. -/
structure ModelField where
  name : String
  db_column : Option String := none
  is_relation : Bool := false
  null : Bool := false
deriving DecidableEq

/-- Django's `Meta.unique_together` is either one flat tuple of field names or
a tuple of tuples (several groups). -/
inductive UniqueTogether where
  | flat (names : List String)
  | nested (groups : List (List String))
deriving DecidableEq

/-- The slice of a Django model used by the db layer: physical table name,
ordered concrete fields (`_meta.fields`), the `unique_together` declaration
and the primary-key field name (`_meta.pk`). -/
structure DjangoModel where
  db_table : String
  fields : List ModelField
  unique_together : UniqueTogether
  pk_name : String
deriving DecidableEq

/-- `get_field_name` (utils.py:5-8): relations get an `_id` suffix, otherwise
`db_column` wins over `name` when it is truthy (non-empty). -/
def get_field_name (f : ModelField) : String :=
  if f.is_relation then f.name ++ "_id"
  else
    match f.db_column with
    | some c => if c.isEmpty then f.name else c
    | none => f.name

/-- `get_model_fields` (utils.py:27-28). -/
def get_model_fields (m : DjangoModel) : List ModelField :=
  m.fields

/-- `get_name_field_mapping` (utils.py:1-2) as a lookup: a Python dict
comprehension keeps the *last* field for a duplicated name, hence the
`reverse` before `find?`. -/
def get_name_field_mapping (m : DjangoModel) (n : String) : Option ModelField :=
  (get_model_fields m).reverse.find? (fun f => f.name == n)

/-- `get_unique_fields` (utils.py:11-17): empty (falsy) `unique_together`
yields `[]`; a tuple of tuples is collapsed to its *first* group; each name is
resolved through the name-field mapping (a missing name is a `KeyError`,
modelled by `Except.error`). -/
def get_unique_fields (m : DjangoModel) : Except Unit (List ModelField) :=
  let names :=
    match m.unique_together with
    | .flat ns => ns
    | .nested [] => []
    | .nested (g :: _) => g
  names.mapM (fun n =>
    match get_name_field_mapping m n with
    | some f => Except.ok f
    | none => Except.error ())

/-- `get_unique_field_names` (utils.py:20-24): nullable unique fields are
rendered through the default `null_field_expr`, `'COALESCE(%s, -1)'`. -/
def get_unique_field_names (m : DjangoModel) : Except Unit (List String) :=
  (get_unique_fields m).map (List.map (fun f =>
    if f.null then "COALESCE(" ++ get_field_name f ++ ", -1)" else get_field_name f))

/-- `get_model_field_names` (utils.py:31-32). -/
def get_model_field_names (m : DjangoModel) : List String :=
  (get_model_fields m).map get_field_name

/-- `get_manage_field_names` (utils.py:35-36): a constant — it takes no model
argument and always returns the singleton set containing `'id'`. -/
def get_manage_field_names : List String :=
  ["id"]

/-- The column set of `get_upsert_clause_sql` (utils.py:39-42):
`set(columns) - (set(get_unique_field_names(model)) | set(get_manage_field_names()))`.
Python's `columns or get_model_field_names(model)` falls back on a falsy
(empty) column list.  Set iteration order is unspecified in Python; we fix
first-occurrence order via `eraseDups`, which claims about membership do not
depend on. -/
def upsert_columns (m : DjangoModel) (columns : List String) : Except Unit (List String) := do
  let cols := if columns.isEmpty then get_model_field_names m else columns
  let uniq ← get_unique_field_names m
  .ok (cols.eraseDups.filter (fun c =>
    !(uniq.contains c) && !(get_manage_field_names.contains c)))

/-- `get_upsert_clause_sql` (utils.py:39-42): render each surviving column as
`"col" = EXCLUDED."col"` and comma-join. -/
def get_upsert_clause_sql (m : DjangoModel) (columns : List String) : Except Unit String :=
  (upsert_columns m columns).map (fun l =>
    pyJoin ", " (l.map (fun c => "\"" ++ c ++ "\" = EXCLUDED.\"" ++ c ++ "\"")))

/-- `mogrify` of psycopg2 applied to the placeholder tuple built in
`get_insert_values_sql` (utils.py:62-63): the placeholder has one `%s` per
element of the *first* row, so a row of a different arity is a `TypeError`
(`Except.error`); otherwise every value is rendered through the cursor's
escaping facility `esc`. -/
def mogrify {α : Type} (esc : α → String) (k : Nat) (row : List α) : Except Unit String :=
  if row.length = k then .ok ("(" ++ pyJoin "," (row.map esc) ++ ")") else .error ()

/-- The generator `cursor.mogrify(placeholders, v) for v in rows` of
utils.py:64: each row rendered in order, the first failure propagating. -/
def mogrifyRows {α : Type} (esc : α → String) (k : Nat) :
    List (List α) → Except Unit (List String)
  | [] => .ok []
  | r :: rest => do
    let s ← mogrify esc k r
    let ss ← mogrifyRows esc k rest
    .ok (s :: ss)

/-- `get_insert_values_sql` (utils.py:62-64): `rows[0]` raises on an empty row
list; otherwise the comma-join of one mogrified tuple per row. -/
def get_insert_values_sql {α : Type} (esc : α → String) (rows : List (List α)) :
    Except Unit String :=
  match rows with
  | [] => .error ()
  | r0 :: _ => (mogrifyRows esc r0.length rows).map (pyJoin ",")

/-! ## db/postgresql.py -/

/-- The dataframe as the db layer sees it: ordered column names plus row-major
data (`dataframe.to_dict('split')['data']`). -/
structure DbFrame (α : Type) where
  columns : List String
  rows : List (List α)

/-- pandas `DataFrame.empty`: true when either axis has length zero. -/
def DbFrame.pdEmpty {α : Type} (df : DbFrame α) : Bool :=
  df.rows.isEmpty || df.columns.isEmpty

/-- The database cursor/connection oracle: the escaping facility used by
`mogrify`, the outcome of `cursor.copy_expert` and the outcome of
`cursor.execute` (with the rows a subsequent `fetchall` would return). -/
structure Cursor (α : Type) where
  esc : α → String
  copyOutcome : Except Unit Unit
  execOutcome : Except Unit (List (List α))

/-- The observable database actions of one `save` call. -/
inductive DbAction where
  | copyExpert
  | commit
  | rollback
  | execute
deriving DecidableEq, BEq

/-- What a `save`/`upsert` call does for the caller: return a value
(`None` or a list of rows) or raise. -/
inductive DbResult (α : Type) where
  | returned (rows : Option (List (List α)))
  | raised
deriving DecidableEq

/-- The `returning_columns` truthiness test used throughout postgresql.py:
`None` and `[]` are both falsy, modelled by the empty list. -/
def returningRequested (returning : List String) : Bool :=
  !returning.isEmpty

/-- `conflict_statement` as assembled in `DataFrameDatabaseSaver.upsert`
(postgresql.py:37-43): empty when there are no unique columns; otherwise
`ON CONFLICT (<targets>)` followed by `DO UPDATE SET <clause>` when the
clause string is truthy and `DO NOTHING` when it is empty.  Whitespace of the
Python triple-quoted template is normalised to single spaces. -/
def conflict_statement (m : DjangoModel) (columns : List String) : Except Unit String := do
  let uniq ← get_unique_field_names m
  let clause ← get_upsert_clause_sql m columns
  if uniq.isEmpty then .ok ""
  else
    .ok ("ON CONFLICT (" ++ pyJoin ", " uniq ++ ") " ++
      (if clause.isEmpty then "DO NOTHING " else "DO UPDATE SET " ++ clause ++ " "))

/-- `returning_statement` (postgresql.py:45). -/
def returning_statement (returning : List String) : String :=
  if returningRequested returning then "RETURNING " ++ pyJoin ", " returning else ""

/-- The full upsert query text (postgresql.py:48-57), whitespace normalised.
Any exception thrown while building it (`KeyError` from the unique-field
lookup, `TypeError` from mogrify) is an `Except.error`. -/
def buildUpsertQuery {α : Type} (esc : α → String) (df : DbFrame α) (m : DjangoModel)
    (returning : List String) : Except Unit String := do
  let conflict ← conflict_statement m df.columns
  let values ← get_insert_values_sql esc df.rows
  .ok ("INSERT INTO " ++ m.db_table ++ " (" ++ pyJoin "," df.columns ++ ") VALUES " ++
    values ++ " " ++ conflict ++ returning_statement returning)

/-- `DataFrameDatabaseSaver.upsert` (postgresql.py:29-67): empty dataframe
short-circuits; a failure while building the query propagates with no database
action (it happens before the `try`); otherwise the statement is executed, the
transaction committed on success (rows fetched only when requested), and on
failure rolled back and the exception re-raised. -/
def upsert {α : Type} (cur : Cursor α) (df : DbFrame α) (m : DjangoModel)
    (returning : List String) : List DbAction × DbResult α :=
  if df.pdEmpty then
    ([], .returned (if returningRequested returning then some [] else none))
  else
    match buildUpsertQuery cur.esc df m returning with
    | .error _ => ([], .raised)
    | .ok _ =>
      match cur.execOutcome with
      | .ok rows =>
        ([.execute, .commit],
          .returned (if returningRequested returning then some rows else none))
      | .error _ => ([.execute, .rollback], .raised)

/-- `DataFrameDatabaseSaver.save` (postgresql.py:9-27): empty dataframe
short-circuits; otherwise COPY inside a transaction, committing on success
(note: returns `[]` even when returning columns were requested — COPY cannot
return rows); on any COPY failure the transaction is rolled back and the call
degrades to a single `upsert` attempt whose outcome is returned as-is. -/
def save {α : Type} (cur : Cursor α) (df : DbFrame α) (m : DjangoModel)
    (returning : List String) : List DbAction × DbResult α :=
  if df.pdEmpty then
    ([], .returned (if returningRequested returning then some [] else none))
  else
    match cur.copyOutcome with
    | .ok _ =>
      ([.copyExpert, .commit],
        .returned (if returningRequested returning then some [] else none))
    | .error _ =>
      let fallback := upsert cur df m returning
      ([.copyExpert, .rollback] ++ fallback.1, fallback.2)

/-! ## validation/fields.py

A pandas `Series` keeps its row index through filtering operations; we model a
column as a list of (row index, optional value) pairs, `none` being
null/NaN. -/

/-- A pandas column with its row index. -/
abbrev Series (α : Type) := List (Nat × Option α)

/-- The row index of a column. -/
def seriesIdx {α : Type} (s : Series α) : List Nat :=
  s.map Prod.fst

/-- One entry of `Field.validators` (validation/validators.py): Django-style
validators compare element-wise (`compare` is `(a ≗ b).any()`), raise with one
message when any element violates the bound, and `get_valid_data` keeps
exactly the rows satisfying it.  `Max/MinValueValidator` and
`Max/MinLengthValidator` are all of this shape, differing only in `pred`. -/
structure PValidator (α : Type) where
  pred : Option α → Bool
  message : String

/-- `pandasio.validation.fields.Field`.  `toInternal` is the
`to_internal_value` coercion: the base `Field` (fields.py:59-60) returns the
data unchanged, which is the default here; subclasses (IntegerField,
CharField, ...) install their own pandas coercions.  The constructor assert
(fields.py:42) requires `allow_null` whenever `replace_null` is set. -/
structure Field (α : Type) where
  required : Bool := true
  allow_null : Bool := false
  replace_null : Option α := none
  defaultVal : Option (Series α) := none
  validators : List (PValidator α) := []
  toInternal : Series α → Series α × List String := fun s => (s, [])

/-- `Field.validate_empty_values` (fields.py:62-95) for a non-read-only field.
`input = none` is `serializers.empty` (column missing from the dataframe):
`required` records a `required` error and yields an empty series, otherwise
`get_default()` is the declared default or a `SkipField` (`Except.error`).
For a present column: if any element is null then, in order, substitute
`replace_null` when set; else with `allow_null=False` record a `null` error
and keep only the non-null rows; else pass nulls through (the `source='*'`
sub-branch returns the same value).  Returns (is_empty_value, data, errors
recorded by `fail`). -/
def Field.validate_empty_values {α : Type} (f : Field α) (input : Option (Series α)) :
    Except Unit (Bool × Series α × List String) :=
  match input with
  | none =>
    if f.required then .ok (true, [], ["This column is required"])
    else
      match f.defaultVal with
      | none => .error ()
      | some d => .ok (true, d, [])
  | some column =>
    if column.any (fun p => p.2.isNone) then
      if f.replace_null.isSome then
        .ok (false, column.map (fun p => (p.1, p.2.orElse (fun _ => f.replace_null))), [])
      else if !f.allow_null then
        .ok (false, column.filter (fun p => p.2.isSome),
          ["This column cannot contain null values"])
      else .ok (false, column, [])
    else .ok (false, column, [])

/-- `Field.run_validators` (fields.py:114-149): each validator in order checks
the current value; a violation records the validator's message (into the
`_errors` set) and narrows the value to `get_valid_data`, i.e. the rows
satisfying the validator. -/
def runValidatorList {α : Type} : List (PValidator α) → Series α → Series α × List String
  | [], value => (value, [])
  | v :: rest, value =>
    if value.all (fun p => v.pred p.2) then runValidatorList rest value
    else
      let r := runValidatorList rest (value.filter (fun p => v.pred p.2))
      (r.1, v.message :: r.2)

/-- `Field.run_validation` (fields.py:97-112): empty-value handling, then
`to_internal_value`, then the validators; the errors the field accumulated
across the three stages are returned alongside the value.  `Except.error` is
`SkipField`. -/
def Field.run_validation {α : Type} (f : Field α) (input : Option (Series α)) :
    Except Unit (Series α × List String) :=
  match f.validate_empty_values input with
  | .error _ => .error ()
  | .ok (true, data, errs) => .ok (data, errs)
  | .ok (false, data, errs0) =>
    let r1 := f.toInternal data
    let r2 := runValidatorList f.validators r1.1
    .ok (r2.1, errs0 ++ r1.2 ++ r2.2)

/-! ## validation/dataframes.py -/

/-- A pandas DataFrame: ordered named columns.  (The pandas invariant that all
columns share one index is not baked into the type; the theorems track it.) -/
abbrev DFrame (α : Type) := List (String × Series α)

/-- `df.shape[0]`: number of rows (length of the index, read off the first
column; the fresh `pd.DataFrame()` has zero rows). -/
def dfShape0 {α : Type} : DFrame α → Nat
  | [] => 0
  | (_, c) :: _ => c.length

/-- The row index of a dataframe. -/
def dfIndex {α : Type} : DFrame α → List Nat
  | [] => []
  | (_, c) :: _ => seriesIdx c

/-- pandas `df.empty`: no columns or no rows. -/
def dfIsEmpty {α : Type} (df : DFrame α) : Bool :=
  df.isEmpty || dfShape0 df == 0

/-- `field.get_value(data)` (rest_framework): `dictionary.get(field_name,
empty)` — the named column, or the `empty` sentinel (`none`) when absent. -/
def get_value {α : Type} (name : String) (df : DFrame α) : Option (Series α) :=
  (df.find? (fun p => p.1 == name)).map Prod.snd

/-- Value at row `i` of a series, `none` (NaN) when the row is absent. -/
def seriesLookup {α : Type} (s : Series α) (i : Nat) : Option α :=
  match s.find? (fun p => p.1 == i) with
  | some p => p.2
  | none => none

/-- pandas index alignment: reindex the series `s` onto the index `idx`,
filling missing rows with NaN. -/
def alignTo {α : Type} (idx : List Nat) (s : Series α) : Series α :=
  idx.map (fun i => (i, seriesLookup s i))

/-- `ret[name] = series` (dataframes.py:72): assignment to a dataframe with no
columns adopts the series' index; otherwise the series is aligned to the
existing index.  (Field names are distinct in a serializer, so the new column
is always fresh.) -/
def setCol {α : Type} (df : DFrame α) (name : String) (s : Series α) : DFrame α :=
  match df with
  | [] => [(name, s)]
  | _ => df ++ [(name, alignTo (dfIndex df) s)]

/-- `ret.join(series.to_frame(name), how='inner')` (dataframes.py:70): the new
index is the part of the left index also present in the series' index (left
order); existing columns are restricted to it and the new column aligned. -/
def joinInner {α : Type} (df : DFrame α) (name : String) (s : Series α) : DFrame α :=
  let newIdx := (dfIndex df).filter (fun i => (seriesIdx s).contains i)
  (df.map (fun p => (p.1, p.2.filter (fun q => newIdx.contains q.1)))) ++
    [(name, alignTo newIdx s)]

/-- The per-field loop of `DataFrameSerializer.to_internal_value`
(dataframes.py:52-84), carrying `ret`, `df_valid` and the `_errors` report
(in field order — `_errors` is an insertion-ordered defaultdict).  `n` is
`self.initial_data.shape[0]`.  A `SkipField` sets `df_valid = False` and
stores the field's (empty) error set under its name; otherwise an empty
validated column clears `df_valid`, the column joins `ret` by inner join when
`df_valid` holds, `ret` is non-empty and the sizes mismatch, and is assigned
directly otherwise; non-empty field errors are recorded under the field name.
The base serializer defines no `validate_<field>` hooks, so none are
modelled. -/
def serLoop {α : Type} (n : Nat) (df : DFrame α) :
    List (String × Field α) → DFrame α → Bool → List (String × List String) →
    DFrame α × Bool × List (String × List String)
  | [], ret, dfValid, report => (ret, dfValid, report)
  | (name, f) :: rest, ret, dfValid, report =>
    match f.run_validation (get_value name df) with
    | .error _ => serLoop n df rest ret false (report ++ [(name, [])])
    | .ok (validated, ferrs) =>
      let dfValid1 := if validated.isEmpty then false else dfValid
      let notValid := !(n == validated.length && validated.length == dfShape0 ret)
      let ret1 :=
        if dfValid1 && !(dfIsEmpty ret) && notValid then joinInner ret name validated
        else setCol ret name validated
      serLoop n df rest ret1 dfValid1
        (report ++ (if ferrs.isEmpty then [] else [(name, ferrs)]))

/-- `DataFrameSerializer.to_internal_value` (dataframes.py:40-88) on a genuine
dataframe, together with the error report the run leaves in `self._errors`:
the loop over writable fields starting from a fresh `pd.DataFrame()` and
`df_valid = True`; the final frame is returned only when `df_valid` survived,
else a fresh empty frame.  `run_validation` (dataframes.py:118-131) adds only
the serializer-level validators and `validate` hook, which the base class
leaves trivial, so validating a dataframe is this function. -/
def to_internal_value {α : Type} (fields : List (String × Field α)) (df : DFrame α) :
    DFrame α × List (String × List String) :=
  let r := serLoop (dfShape0 df) df fields [] true []
  (if r.2.1 then r.1 else [], r.2.2)

/-! ## validation/columns.py — ListColumn -/

/-- `OrderedDict` assignment `errors[k] = v`: overwrite an existing key, else
append. -/
def ocInsert (errors : List (Nat × List String)) (k : Nat) (v : List String) :
    List (Nat × List String) :=
  if errors.any (fun p => p.1 == k) then
    errors.map (fun p => if p.1 == k then (k, v) else p)
  else errors ++ [(k, v)]

/-- `ListColumn.run_child_validation` (columns.py:225-243).  `idx = -1` is
captured by value: the closure's `i += 1` increments a local copy, so every
failing cell records its errors under key `(-1) + 1 = 0`.  A null cell with
`allow_null` maps to `None`; otherwise the cell's elements run through the
child validator (`pd.Series(None)` for a null cell without `allow_null` is an
empty series, modelled as `[]`), a failure recording the detail and leaving
`None` in the transformed column.  If any error was recorded the whole column
raises `ValidationError(errors)`. -/
def run_child_validation {α : Type} (allow_null : Bool)
    (childRun : List α → Except (List String) (List α))
    (data : List (Option (List α))) :
    Except (List (Nat × List String)) (List (Option (List α))) :=
  let idxStart : Int := -1
  let key : Nat := (idxStart + 1).toNat
  let step := fun (acc : List (Option (List α)) × List (Nat × List String))
      (cell : Option (List α)) =>
    match cell with
    | none =>
      if allow_null then (acc.1 ++ [none], acc.2)
      else
        match childRun [] with
        | .ok v => (acc.1 ++ [some v], acc.2)
        | .error e => (acc.1 ++ [none], ocInsert acc.2 key e)
    | some l =>
      match childRun l with
      | .ok v => (acc.1 ++ [some v], acc.2)
      | .error e => (acc.1 ++ [none], ocInsert acc.2 key e)
  let r := data.foldl step ([], [])
  if r.2.isEmpty then .ok r.1 else .error r.2

/-! ## Derived notions used by the theorem statements -/

/-- The row positions of `range n` that survive every column's validation: the
intersection of the per-column valid subsets. -/
def canonInter (n : Nat) (subs : List (List Nat)) : List Nat :=
  (List.range n).filter (fun i => subs.all (fun s => s.contains i))

/-- The valid row subset a declared field leaves on its column of `df`: the
index of the validated series (`[]` for a skipped field). -/
def fieldValidIdx {α : Type} (df : DFrame α) (p : String × Field α) : List Nat :=
  match p.2.run_validation (get_value p.1 df) with
  | .ok r => seriesIdx r.1
  | .error _ => []

/-- All columns of a frame share its index (the pandas invariant). -/
def dfUniform {α : Type} (df : DFrame α) : Prop :=
  ∀ p ∈ df, seriesIdx p.2 = dfIndex df

/-- Well-behavedness of a field coercion, satisfied by the base `Field`'s
identity coercion: with no error recorded it preserves the row index, it is
idempotent on cleanly-coerced data, and it does not invent nulls from
non-null data. -/
def CoercionOk {α : Type} (f : Field α) : Prop :=
  (∀ c, (f.toInternal c).2 = [] → seriesIdx (f.toInternal c).1 = seriesIdx c) ∧
  (∀ c c', f.toInternal c = (c', []) → f.toInternal c' = (c', [])) ∧
  (∀ c c', f.toInternal c = (c', []) →
    c.all (fun p => p.2.isSome) → c'.all (fun p => p.2.isSome))

/-- The invariant maintained by `serLoop` over the processed columns' valid
subsets `ps`: while `df_valid` holds, `ret` is either still the fresh frame
(no column processed) or indexed exactly by the intersection of the processed
valid subsets, with all its columns sharing that index; once `df_valid` is
cleared, the intersection is already empty. -/
def SerInv {α : Type} (n : Nat) (ps : List (List Nat)) (ret : DFrame α) (dfValid : Bool) :
    Prop :=
  (dfValid = true →
    (ret = [] ∧ ps = []) ∨
    (ret ≠ [] ∧ dfIndex ret = canonInter n ps ∧ dfUniform ret)) ∧
  (dfValid = false → canonInter n ps = [])

/-- The validated column a field leaves for `df` (`[]` for a skipped field). -/
def fieldCleanOut {α : Type} (df : DFrame α) (p : String × Field α) : Series α :=
  match p.2.run_validation (get_value p.1 df) with
  | .ok r => r.1
  | .error _ => []

/-- Python's `columns or get_model_field_names(model)` (utils.py:40). -/
def effectiveColumns (m : DjangoModel) (cols : List String) : List String :=
  if cols.isEmpty then get_model_field_names m else cols

/-- The update-column set the code actually produces, phrased over the
*rendered* unique names `uniq` (claim C5 as amended). -/
def amendedUpdateColumns (m : DjangoModel) (cols : List String) (uniq : List String) :
    List String :=
  (effectiveColumns m cols).eraseDups.filter (fun c =>
    !(uniq.contains c) && !(get_manage_field_names.contains c))

/-- The spec's rendering of one conflict-target column (claim C4's wording):
a nullable unique column becomes a COALESCE expression over the
null-coalescing sentinel, a non-nullable one its bare column name. -/
def specUniqueColumnRender (f : ModelField) : String :=
  if f.null then "COALESCE(" ++ get_field_name f ++ ", -1)" else get_field_name f

/-- The update-column set claim C5 asserts (spec wording): the dataframe
columns that are neither unique-constraint columns (their bare names) nor
managed columns. -/
def claimedUpdateColumns (m : DjangoModel) (columns : List String) :
    Except Unit (List String) := do
  let uf ← get_unique_fields m
  let bare := uf.map get_field_name
  .ok (columns.eraseDups.filter (fun c =>
    !(bare.contains c) && !(get_manage_field_names.contains c)))

/-! ## Concrete instances used by counterexamples and witnesses -/

/-- A model with a nullable unique column `u` and a plain column `v`. -/
def mNullableUnique : DjangoModel :=
  { db_table := "t"
    fields := [{ name := "u", null := true }, { name := "v" }]
    unique_together := .flat ["u"]
    pk_name := "id" }

/-- A model with a non-nullable unique column `k` and plain columns. -/
def mPlainUnique : DjangoModel :=
  { db_table := "orders"
    fields := [{ name := "k" }, { name := "name" }, { name := "score", null := true }]
    unique_together := .flat ["k"]
    pk_name := "id" }

/-- A child validator for the ListColumn example: rejects any cell containing
the element `"bad"`. -/
def childRunEx : List String → Except (List String) (List String) :=
  fun l => if l.contains "bad" then .error ["invalid element"] else .ok l

/-- A model whose primary key is named `key`, not `id`, with no unique
constraint. -/
def mPkKey : DjangoModel :=
  { db_table := "t2"
    fields := [{ name := "key" }, { name := "v" }]
    unique_together := .flat []
    pk_name := "key" }

/-- A cursor whose COPY and execute both fail. -/
def curBothFail : Cursor Int :=
  { esc := fun v => toString v, copyOutcome := .error (), execOutcome := .error () }

/-- A cursor whose COPY fails but whose execute succeeds (fetching no rows). -/
def curCopyFail : Cursor Int :=
  { esc := fun v => toString v, copyOutcome := .error (), execOutcome := .ok [] }

/-- A two-column, one-row dataframe for the db layer. -/
def dfDbOne : DbFrame Int :=
  { columns := ["k", "v"], rows := [[1, 2]] }

/-- A zero-row dataframe for the db layer. -/
def dfDbEmpty : DbFrame Int :=
  { columns := ["k", "v"], rows := [] }

/-- Two default integer fields named `a` and `b`. -/
def fieldsAB : List (String × Field Int) :=
  [("a", {}), ("b", {})]

/-- A raw input for `fieldsAB`: three rows, column `a` holding a null at
row 1. -/
def dfAB : DFrame Int :=
  [("a", [(0, some 1), (1, none), (2, some 3)]),
   ("b", [(0, some 7), (1, some 8), (2, some 9)])]

/-- A single default field named `a`. -/
def fieldsOne : List (String × Field Int) :=
  [("a", {})]

/-- A clean one-row input for `fieldsOne`. -/
def dfOne : DFrame Int :=
  [("a", [(0, some 5)])]

/-! # Helper lemmas -/

theorem pyJoin_foldl_length (sep : String) :
    ∀ (l : List String) (acc : String),
      acc.length ≤ (l.foldl (fun a b => a ++ (sep ++ b)) acc).length := by
  intro l
  induction l with
  | nil => intro acc; exact Nat.le_refl _
  | cons b bs ih =>
    intro acc
    refine Nat.le_trans ?_ (ih (acc ++ (sep ++ b)))
    rw [String.length_append]
    exact Nat.le_add_right _ _

theorem pyJoin_cons_length (sep a : String) (as : List String) :
    a.length ≤ (pyJoin sep (a :: as)).length :=
  pyJoin_foldl_length sep as a

theorem pyJoin_eq_empty_iff (sep : String) (l : List String)
    (h : ∀ a ∈ l, 0 < a.length) : pyJoin sep l = "" ↔ l = [] := by
  constructor
  · intro he
    cases l with
    | nil => rfl
    | cons a as =>
      exfalso
      have h1 : a.length ≤ (pyJoin sep (a :: as)).length := pyJoin_cons_length sep a as
      rw [he] at h1
      have h2 : 0 < a.length := h a (List.mem_cons_self a as)
      have h3 : ("" : String).length = 0 := rfl
      omega
  · intro he; subst he; rfl

theorem excluded_item_pos (c : String) :
    0 < ("\"" ++ c ++ "\" = EXCLUDED.\"" ++ c ++ "\"").length := by
  rw [String.length_append, String.length_append, String.length_append,
    String.length_append]
  have h1 : ("\"" : String).length = 1 := rfl
  omega

theorem canonInter_nil (n : Nat) : canonInter n [] = List.range n := by
  simp [canonInter]

theorem canonInter_append (n : Nat) (ps : List (List Nat)) (s : List Nat) :
    canonInter n (ps ++ [s]) = (canonInter n ps).filter (fun i => s.contains i) := by
  unfold canonInter
  rw [List.filter_filter]
  apply List.filter_congr
  intro a _
  simp [List.all_append, Bool.and_comm]

theorem canonInter_sub (n : Nat) (subs : List (List Nat)) :
    List.Sublist (canonInter n subs) (List.range n) :=
  List.filter_sublist _

theorem filter_contains_of_sublist :
    ∀ {l r : List Nat}, List.Sublist l r → r.Nodup →
      r.filter (fun x => l.contains x) = l := by
  intro l r h
  induction h with
  | slnil => intro _; rfl
  | @cons l1 l2 a h ih =>
    intro hnod
    obtain ⟨hna, hr⟩ := List.nodup_cons.mp hnod
    have ha : l1.contains a = false := by
      have : a ∉ l1 := fun hmem => hna (h.subset hmem)
      simpa using this
    rw [List.filter_cons, ha]
    simp only [Bool.false_eq_true, if_false]
    exact ih hr
  | @cons₂ l1 l2 a h ih =>
    intro hnod
    obtain ⟨hna, hr⟩ := List.nodup_cons.mp hnod
    have ha : (a :: l1).contains a = true := by simp
    rw [List.filter_cons, ha]
    simp only [if_true]
    congr 1
    rw [List.filter_congr (q := fun x => l1.contains x) ?_]
    · exact ih hr
    · intro b hb
      have hbne : b ≠ a := fun he => hna (he ▸ hb)
      simp [hbne]

theorem seriesIdx_filter {α : Type} (c : Series α) (p : Nat → Bool) :
    seriesIdx (c.filter (fun q => p q.1)) = (seriesIdx c).filter p := by
  induction c with
  | nil => rfl
  | cons a l ih =>
    by_cases h : p a.1 = true
    · simp [seriesIdx, List.filter_cons, h] at ih ⊢; exact ih
    · rw [Bool.not_eq_true] at h
      simp [seriesIdx, List.filter_cons, h] at ih ⊢; exact ih

theorem seriesIdx_map_vals {α : Type} (c : Series α) (g : Nat × Option α → Option α) :
    seriesIdx (c.map (fun p => (p.1, g p))) = seriesIdx c := by
  simp [seriesIdx, List.map_map, Function.comp]

theorem seriesIdx_alignTo {α : Type} (idx : List Nat) (s : Series α) :
    seriesIdx (alignTo idx s) = idx := by
  unfold seriesIdx alignTo
  rw [List.map_map]
  exact List.map_id idx

theorem seriesIdx_length {α : Type} (s : Series α) :
    (seriesIdx s).length = s.length :=
  List.length_map s Prod.fst

theorem seriesLookup_cons_self {α : Type} (q : Nat × Option α) (rest : Series α) :
    seriesLookup (q :: rest) q.1 = q.2 := by
  unfold seriesLookup
  rw [List.find?_cons_of_pos _ (by simp)]

theorem seriesLookup_cons_ne {α : Type} (q : Nat × Option α) (rest : Series α)
    (i : Nat) (h : i ≠ q.1) :
    seriesLookup (q :: rest) i = seriesLookup rest i := by
  unfold seriesLookup
  rw [List.find?_cons_of_neg _ (by simp [Ne.symm h])]

theorem alignTo_self {α : Type} :
    ∀ (s : Series α), (seriesIdx s).Nodup → alignTo (seriesIdx s) s = s := by
  intro s
  induction s with
  | nil => intro _; rfl
  | cons q rest ih =>
    intro h
    have h' : q.1 ∉ seriesIdx rest ∧ (seriesIdx rest).Nodup := by
      have : (q.1 :: seriesIdx rest).Nodup := by simpa [seriesIdx] using h
      exact List.nodup_cons.mp this
    show (q.1 :: seriesIdx rest).map (fun i => (i, seriesLookup (q :: rest) i)) = q :: rest
    rw [List.map_cons]
    congr 1
    · rw [seriesLookup_cons_self]
    · rw [List.map_congr_left (g := fun i => (i, seriesLookup rest i)) ?_]
      · exact ih h'.2
      · intro i hi
        have : i ≠ q.1 := fun he => h'.1 (he ▸ hi)
        rw [seriesLookup_cons_ne _ _ _ this]

theorem dfIndex_append_left {α : Type} (df l : DFrame α) (h : df ≠ []) :
    dfIndex (df ++ l) = dfIndex df := by
  cases df with
  | nil => exact absurd rfl h
  | cons p rest => rfl

theorem dfShape0_append_left {α : Type} (df l : DFrame α) (h : df ≠ []) :
    dfShape0 (df ++ l) = dfShape0 df := by
  cases df with
  | nil => exact absurd rfl h
  | cons p rest => rfl

theorem bind_ok_reduce {ε α β : Type} (a : α) (f : α → Except ε β) :
    (Except.ok a >>= f) = f a :=
  rfl

theorem serLoop_cons_ok {α : Type} (n : Nat) (df : DFrame α) (name : String)
    (f : Field α) (rest : List (String × Field α)) (ret : DFrame α)
    (dfValid : Bool) (report : List (String × List String))
    (validated : Series α) (ferrs : List String)
    (h : f.run_validation (get_value name df) = .ok (validated, ferrs)) :
    serLoop n df ((name, f) :: rest) ret dfValid report =
      serLoop n df rest
        (if ((if validated.isEmpty then false else dfValid) && !(dfIsEmpty ret) &&
            !(n == validated.length && validated.length == dfShape0 ret)) then
          joinInner ret name validated
        else setCol ret name validated)
        (if validated.isEmpty then false else dfValid)
        (report ++ (if ferrs.isEmpty then [] else [(name, ferrs)])) := by
  rw [serLoop.eq_2, h]

theorem serLoop_cons_err {α : Type} (n : Nat) (df : DFrame α) (name : String)
    (f : Field α) (rest : List (String × Field α)) (ret : DFrame α)
    (dfValid : Bool) (report : List (String × List String))
    (h : f.run_validation (get_value name df) = .error ()) :
    serLoop n df ((name, f) :: rest) ret dfValid report =
      serLoop n df rest ret false (report ++ [(name, [])]) := by
  rw [serLoop.eq_2, h]

/-! # Claim C10 — managed columns are the fixed singleton `id` -/

/-- C10: the managed column set excluded from the upsert's `DO UPDATE SET`
clause is the constant `{'id'}` — `get_manage_field_names` takes no model, so
the set does not depend on the model's primary key or any declared audit
fields, and a primary key not named `id` is not managed (witnessed by
`mPkKey`, whose primary-key column `key` survives into the update-column
set). -/
theorem C10_managed_columns_fixed :
    get_manage_field_names = ["id"] ∧
    (∀ s : String, s ∈ get_manage_field_names ↔ s = "id") ∧
    (∀ m : DjangoModel, m.pk_name ≠ "id" → m.pk_name ∉ get_manage_field_names) ∧
    upsert_columns mPkKey ["key", "v"] = .ok ["key", "v"] := by
  refine ⟨rfl, ?_, ?_, rfl⟩
  · intro s
    simp [get_manage_field_names]
  · intro m h hmem
    exact h (by simpa [get_manage_field_names] using hmem)

/-- Witness for C10: the primary key `key` of `mPkKey` is not managed. -/
theorem C10_managed_columns_fixed_witness :
    mPkKey.pk_name ∉ get_manage_field_names :=
  C10_managed_columns_fixed.2.2.1 mPkKey (by decide)

/-! # Claim C4 — conflict target rendering -/

/-- C4: for a model whose unique constraint resolves to the fields `flds`
(non-empty), the rendered conflict-target list is exactly the spec's
rendering — `COALESCE(col, -1)` for each nullable unique column, the bare
column name otherwise — and the generated `ON CONFLICT` clause opens with
that comma-joined target list. -/
theorem C4_conflict_target (m : DjangoModel) (flds : List ModelField)
    (cols : List String) (h : get_unique_fields m = .ok flds) (hne : flds ≠ []) :
    get_unique_field_names m = .ok (flds.map specUniqueColumnRender) ∧
    ∃ tail, conflict_statement m cols =
      .ok ("ON CONFLICT (" ++ pyJoin ", " (flds.map specUniqueColumnRender) ++ ") " ++ tail) := by
  have h1 : get_unique_field_names m = .ok (flds.map specUniqueColumnRender) := by
    unfold get_unique_field_names
    rw [h]
    rfl
  refine ⟨h1, ?_⟩
  have hemp : (flds.map specUniqueColumnRender).isEmpty = false := by
    cases flds with
    | nil => exact absurd rfl hne
    | cons f fs => rfl
  have h2 : ∃ clause, get_upsert_clause_sql m cols = .ok clause := by
    unfold get_upsert_clause_sql upsert_columns
    rw [h1]
    exact ⟨_, rfl⟩
  obtain ⟨clause, hc⟩ := h2
  refine ⟨(if clause.isEmpty then "DO NOTHING " else "DO UPDATE SET " ++ clause ++ " "), ?_⟩
  unfold conflict_statement
  rw [h1, hc]
  simp only [bind_ok_reduce, hemp, Bool.false_eq_true, if_false]

/-- Witness for C4 at `mNullableUnique`: the nullable unique column `u` is
rendered as a COALESCE expression in the conflict target. -/
theorem C4_conflict_target_witness :
    get_unique_field_names mNullableUnique =
      .ok ([{ name := "u", null := true }].map specUniqueColumnRender) ∧
    ∃ tail, conflict_statement mNullableUnique ["u", "v"] =
      .ok ("ON CONFLICT (" ++
        pyJoin ", " ([{ name := "u", null := true }].map specUniqueColumnRender) ++ ") " ++ tail) :=
  C4_conflict_target mNullableUnique [{ name := "u", null := true }] ["u", "v"] rfl
    (by simp)

/-! # Claim C5 — update-column set of the DO UPDATE clause -/

/-- C5 counterexample: for `mNullableUnique` (unique constraint on the
nullable column `u`) and dataframe columns `["u", "v"]`, the code's update
set is `["u", "v"]` — the nullable unique column `u` is *not* excluded,
because the subtraction removes the rendered string `COALESCE(u, -1)` rather
than the column name — whereas the claim's set (dataframe columns minus
unique-constraint columns minus managed columns) is `["v"]`. -/
theorem C5_update_columns_counterexample :
    upsert_columns mNullableUnique ["u", "v"] = .ok ["u", "v"] ∧
    claimedUpdateColumns mNullableUnique ["u", "v"] = .ok ["v"] ∧
    upsert_columns mNullableUnique ["u", "v"] ≠
      claimedUpdateColumns mNullableUnique ["u", "v"] := by
  refine ⟨rfl, rfl, ?_⟩
  intro hcontra
  rw [show upsert_columns mNullableUnique ["u", "v"] = .ok ["u", "v"] from rfl,
    show claimedUpdateColumns mNullableUnique ["u", "v"] = .ok ["v"] from rfl] at hcontra
  exact absurd (Except.ok.inj hcontra) (by decide)

/-- C5 as amended: the `DO UPDATE SET` clause assigns `col = EXCLUDED.col`
for exactly the (deduplicated) dataframe columns that match neither a
*rendered* conflict-target expression (so a nullable unique column, rendered
as `COALESCE(...)`, is not excluded) nor the managed name `id`; when that set
is empty the conflict action degrades to `DO NOTHING`. -/
theorem C5_update_columns_amended (m : DjangoModel) (uniq : List String)
    (cols : List String) (h : get_unique_field_names m = .ok uniq) :
    upsert_columns m cols = .ok (amendedUpdateColumns m cols uniq) ∧
    (∀ clause, get_upsert_clause_sql m cols = .ok clause →
      (clause = "" ↔ amendedUpdateColumns m cols uniq = [])) ∧
    (uniq ≠ [] → conflict_statement m cols =
      .ok ("ON CONFLICT (" ++ pyJoin ", " uniq ++ ") " ++
        (if amendedUpdateColumns m cols uniq = [] then "DO NOTHING "
         else "DO UPDATE SET " ++
           pyJoin ", " ((amendedUpdateColumns m cols uniq).map
             (fun c => "\"" ++ c ++ "\" = EXCLUDED.\"" ++ c ++ "\"")) ++ " "))) := by
  have hu : upsert_columns m cols = .ok (amendedUpdateColumns m cols uniq) := by
    unfold upsert_columns amendedUpdateColumns effectiveColumns
    rw [h]
    rfl
  have hc : get_upsert_clause_sql m cols =
      .ok (pyJoin ", " ((amendedUpdateColumns m cols uniq).map
        (fun c => "\"" ++ c ++ "\" = EXCLUDED.\"" ++ c ++ "\""))) := by
    unfold get_upsert_clause_sql
    rw [hu]
    rfl
  have hpos : ∀ a ∈ (amendedUpdateColumns m cols uniq).map
      (fun c => "\"" ++ c ++ "\" = EXCLUDED.\"" ++ c ++ "\""), 0 < a.length := by
    intro a ha
    obtain ⟨c, _, rfl⟩ := List.mem_map.mp ha
    exact excluded_item_pos c
  have hiff : pyJoin ", " ((amendedUpdateColumns m cols uniq).map
      (fun c => "\"" ++ c ++ "\" = EXCLUDED.\"" ++ c ++ "\"")) = "" ↔
      amendedUpdateColumns m cols uniq = [] := by
    rw [pyJoin_eq_empty_iff _ _ hpos]
    exact List.map_eq_nil_iff
  refine ⟨hu, ?_, ?_⟩
  · intro clause hclause
    rw [hc] at hclause
    rw [← Except.ok.inj hclause]
    exact hiff
  · intro hne
    have hemp : uniq.isEmpty = false := by
      cases uniq with
      | nil => exact absurd rfl hne
      | cons a as => rfl
    unfold conflict_statement
    rw [h, hc]
    by_cases hnil : amendedUpdateColumns m cols uniq = []
    · have hse : (pyJoin ", " ((amendedUpdateColumns m cols uniq).map
          (fun c => "\"" ++ c ++ "\" = EXCLUDED.\"" ++ c ++ "\""))).isEmpty = true := by
        rw [String.isEmpty_iff]
        exact hiff.mpr hnil
      simp only [bind_ok_reduce, hemp, Bool.false_eq_true, if_false, hse, if_true, hnil]
      rfl
    · have hse : (pyJoin ", " ((amendedUpdateColumns m cols uniq).map
          (fun c => "\"" ++ c ++ "\" = EXCLUDED.\"" ++ c ++ "\""))).isEmpty = false := by
        rw [Bool.eq_false_iff]
        intro habs
        exact hnil (hiff.mp ((String.isEmpty_iff _).mp habs))
      simp only [bind_ok_reduce, hemp, Bool.false_eq_true, if_false, hse, hnil]

/-- Witness for the amended C5 at `mNullableUnique` with columns
`["u", "v"]`. -/
theorem C5_update_columns_amended_witness :
    upsert_columns mNullableUnique ["u", "v"] =
      .ok (amendedUpdateColumns mNullableUnique ["u", "v"] ["COALESCE(u, -1)"]) :=
  (C5_update_columns_amended mNullableUnique ["COALESCE(u, -1)"] ["u", "v"] rfl).1

/-! # Claim C9 — VALUES rendered through the cursor's escaping facility -/

theorem mogrifyRows_of_uniform {α : Type} (esc : α → String) (k : Nat) :
    ∀ (rows : List (List α)), (∀ r ∈ rows, r.length = k) →
      mogrifyRows esc k rows =
        .ok (rows.map (fun r => "(" ++ pyJoin "," (r.map esc) ++ ")")) := by
  intro rows
  induction rows with
  | nil => intro _; rfl
  | cons r rest ih =>
    intro h
    have hr : r.length = k := h r (List.mem_cons_self r rest)
    have hrest := ih (fun r' hr' => h r' (List.mem_cons_of_mem r hr'))
    unfold mogrifyRows mogrify
    rw [if_pos hr]
    simp only [bind_ok_reduce, hrest]
    rfl

/-- C9: for a non-empty dataframe with uniform row arity, the generated
VALUES text is the comma-join of one escaped tuple per row — every data value
reaching the SQL text goes through the cursor's escaping facility `esc`
(the model of `cursor.mogrify`), never through naive concatenation: the
output is invariant under replacing `esc` by any function agreeing with it on
the values actually present. -/
theorem C9_values_escaped {α : Type} (esc : α → String) (r0 : List α)
    (rs : List (List α)) (huni : ∀ r ∈ r0 :: rs, r.length = r0.length) :
    get_insert_values_sql esc (r0 :: rs) =
      .ok (pyJoin "," ((r0 :: rs).map (fun r => "(" ++ pyJoin "," (r.map esc) ++ ")"))) ∧
    (∀ esc2 : α → String, (∀ r ∈ r0 :: rs, ∀ v ∈ r, esc v = esc2 v) →
      get_insert_values_sql esc (r0 :: rs) = get_insert_values_sql esc2 (r0 :: rs)) := by
  have h1 : get_insert_values_sql esc (r0 :: rs) =
      .ok (pyJoin "," ((r0 :: rs).map (fun r => "(" ++ pyJoin "," (r.map esc) ++ ")"))) := by
    rw [show get_insert_values_sql esc (r0 :: rs) =
        Except.map (pyJoin ",") (mogrifyRows esc r0.length (r0 :: rs)) from rfl,
      mogrifyRows_of_uniform esc r0.length (r0 :: rs) huni]
    rfl
  refine ⟨h1, ?_⟩
  intro esc2 hagree
  have h2 : get_insert_values_sql esc2 (r0 :: rs) =
      .ok (pyJoin "," ((r0 :: rs).map (fun r => "(" ++ pyJoin "," (r.map esc2) ++ ")"))) := by
    rw [show get_insert_values_sql esc2 (r0 :: rs) =
        Except.map (pyJoin ",") (mogrifyRows esc2 r0.length (r0 :: rs)) from rfl,
      mogrifyRows_of_uniform esc2 r0.length (r0 :: rs) huni]
    rfl
  rw [h1, h2]
  have h3 : (r0 :: rs).map (fun r => "(" ++ pyJoin "," (r.map esc) ++ ")") =
      (r0 :: rs).map (fun r => "(" ++ pyJoin "," (r.map esc2) ++ ")") := by
    apply List.map_congr_left
    intro r hr
    have : r.map esc = r.map esc2 := List.map_congr_left (fun v hv => hagree r hr v hv)
    rw [this]
  rw [h3]

/-- Witness for C9: two concrete integer rows, escaped by `toString`. -/
theorem C9_values_escaped_witness :
    get_insert_values_sql (fun v : Int => toString v) [[1, 2], [3, 4]] =
      .ok (pyJoin "," (([[1, 2], [3, 4]] : List (List Int)).map
        (fun r => "(" ++ pyJoin "," (r.map (fun v : Int => toString v)) ++ ")"))) :=
  (C9_values_escaped (fun v : Int => toString v) [1, 2] [[3, 4]] (by decide)).1

/-! # Claim C2 — one-shot degrade from COPY to upsert -/

/-- C2: for a non-empty dataframe whose COPY attempt fails (and whose upsert
statement builds), the save rolls the COPY transaction back and makes exactly
one upsert attempt; if that attempt's execute also fails, its transaction is
rolled back and the failure is raised to the caller, ending the save; if it
succeeds, the transaction commits and the result is returned. -/
theorem C2_degrade_once {α : Type} (cur : Cursor α) (df : DbFrame α)
    (m : DjangoModel) (returning : List String) (q : String)
    (hne : df.pdEmpty = false) (hcopy : cur.copyOutcome = .error ())
    (hq : buildUpsertQuery cur.esc df m returning = .ok q) :
    (save cur df m returning).1.count .execute = 1 ∧
    (save cur df m returning).1.take 2 = [.copyExpert, .rollback] ∧
    (cur.execOutcome = .error () →
      save cur df m returning =
        ([.copyExpert, .rollback, .execute, .rollback], .raised)) ∧
    (∀ rows, cur.execOutcome = .ok rows →
      save cur df m returning =
        ([.copyExpert, .rollback, .execute, .commit],
          .returned (if returningRequested returning then some rows else none))) := by
  have hsave : save cur df m returning =
      ([.copyExpert, .rollback] ++ (upsert cur df m returning).1,
        (upsert cur df m returning).2) := by
    unfold save
    rw [hne, hcopy]
    rfl
  cases hexec : cur.execOutcome with
  | ok rows =>
    have hup : upsert cur df m returning =
        ([.execute, .commit],
          .returned (if returningRequested returning then some rows else none)) := by
      unfold upsert
      rw [hne, hq, hexec]
      rfl
    rw [hsave, hup]
    refine ⟨rfl, rfl, ?_, ?_⟩
    · intro habs
      cases habs
    · intro rows2 h2
      rw [Except.ok.inj h2]
      rfl
  | error e =>
    have hup : upsert cur df m returning = ([.execute, .rollback], .raised) := by
      unfold upsert
      rw [hne, hq, hexec]
      rfl
    rw [hsave, hup]
    refine ⟨rfl, rfl, fun _ => rfl, ?_⟩
    intro rows2 h2
    cases h2

/-- Witness for C2: concrete cursor with failing COPY and failing execute on
a one-row dataframe — the full trace is copy, rollback, execute, rollback,
and the save raises. -/
theorem C2_degrade_once_witness :
    save curBothFail dfDbOne mPlainUnique [] =
      ([.copyExpert, .rollback, .execute, .rollback], .raised) :=
  (C2_degrade_once curBothFail dfDbOne mPlainUnique []
    "INSERT INTO orders (k,v) VALUES (1,2) ON CONFLICT (k) DO UPDATE SET \"v\" = EXCLUDED.\"v\" "
    rfl rfl rfl).2.2.1 rfl

/-! # Claim C7 — empty dataset is a no-op -/

theorem runValidatorList_nil_value {α : Type} :
    ∀ vs : List (PValidator α), runValidatorList vs [] = ([], []) := by
  intro vs
  induction vs with
  | nil => rfl
  | cons v rest ih =>
    unfold runValidatorList
    rw [if_pos (by rfl)]
    exact ih

theorem field_run_on_empty_column {α : Type} (f : Field α)
    (hti : f.toInternal [] = ([], [])) :
    f.run_validation (some []) = .ok ([], []) := by
  unfold Field.run_validation Field.validate_empty_values
  simp only [List.any_nil, Bool.false_eq_true, if_false, hti,
    runValidatorList_nil_value]
  rfl

theorem get_value_const_nil {α : Type} :
    ∀ (l : List (String × Field α)) (p : String × Field α), p ∈ l →
      get_value p.1 (l.map (fun q => (q.1, ([] : Series α)))) = some [] := by
  intro l
  induction l with
  | nil => intro p hp; cases hp
  | cons q rest ih =>
    intro p hp
    by_cases hname : (q.1 == p.1) = true
    · simp only [get_value, List.map_cons, List.find?_cons, hname]
      rfl
    · have hp' : p ∈ rest := by
        cases hp with
        | head => exact absurd (by simp) hname
        | tail _ h => exact h
      have hf : (q.1 == p.1) = false := Bool.eq_false_iff.mpr hname
      simp only [get_value, List.map_cons, List.find?_cons, hf]
      simpa [get_value] using ih p hp'

theorem serLoop_all_empty {α : Type} (n : Nat) (dfe : DFrame α) :
    ∀ (fs : List (String × Field α)) (ret : DFrame α)
      (report : List (String × List String)),
      (∀ p ∈ fs, p.2.run_validation (get_value p.1 dfe) = .ok ([], [])) →
      (serLoop n dfe fs ret false report).2.1 = false ∧
      (serLoop n dfe fs ret false report).2.2 = report := by
  intro fs
  induction fs with
  | nil => intro ret report _; exact ⟨rfl, rfl⟩
  | cons p rest ih =>
    intro ret report h
    have hp := h p (List.mem_cons_self p rest)
    obtain ⟨name, f⟩ := p
    rw [serLoop_cons_ok n dfe name f rest ret false report [] [] hp]
    simp only [List.isEmpty_nil, if_true, Bool.false_and, Bool.false_eq_true, if_false,
      List.append_nil]
    exact ih (setCol ret name []) report
      (fun q hq => h q (List.mem_cons_of_mem _ hq))

/-- C7: an empty dataset is a no-op end to end — `save` and `upsert` both
short-circuit with zero database actions, returning an empty list exactly
when returning columns were requested and nothing otherwise; and validating a
zero-row dataframe that carries the declared columns yields an empty frame
with an empty error report (the per-kind coercions all succeed trivially on
an empty column, hypothesis `hti`). -/
theorem C7_empty_noop {α : Type} (cur : Cursor α) (df : DbFrame α)
    (m : DjangoModel) (returning : List String) (hempty : df.pdEmpty = true)
    (fields : List (String × Field α))
    (hti : ∀ p ∈ fields, p.2.toInternal [] = ([], [])) :
    save cur df m returning =
      ([], .returned (if returningRequested returning then some [] else none)) ∧
    upsert cur df m returning =
      ([], .returned (if returningRequested returning then some [] else none)) ∧
    to_internal_value fields (fields.map (fun p => (p.1, ([] : Series α)))) = ([], []) := by
  refine ⟨?_, ?_, ?_⟩
  · unfold save
    rw [hempty]
    rfl
  · unfold upsert
    rw [hempty]
    rfl
  · have hrun : ∀ p ∈ fields,
        p.2.run_validation
          (get_value p.1 (fields.map (fun q => (q.1, ([] : Series α))))) = .ok ([], []) := by
      intro p hp
      rw [get_value_const_nil fields p hp]
      exact field_run_on_empty_column p.2 (hti p hp)
    cases hf : fields with
    | nil => rfl
    | cons p rest =>
      rw [hf] at hrun
      have hp := hrun p (List.mem_cons_self p rest)
      obtain ⟨name, f⟩ := p
      unfold to_internal_value
      rw [serLoop_cons_ok _ _ name f rest [] true [] [] [] hp]
      simp only [List.isEmpty_nil, if_true, Bool.false_and, Bool.false_eq_true, if_false,
        List.append_nil]
      have hrest := serLoop_all_empty (dfShape0 (((name, f) :: rest).map
          (fun q => (q.1, ([] : Series α)))))
        (((name, f) :: rest).map (fun q => (q.1, ([] : Series α))))
        rest (setCol [] name []) []
        (fun q hq => hrun q (List.mem_cons_of_mem _ hq))
      obtain ⟨hv, hr⟩ := hrest
      rw [hv, hr]
      rfl

/-- Witness for C7: the empty dataframe with one declared field. -/
theorem C7_empty_noop_witness :
    save curCopyFail dfDbEmpty mPlainUnique [] = ([], .returned none) ∧
    to_internal_value fieldsOne (fieldsOne.map (fun p => (p.1, ([] : Series Int)))) =
      ([], []) := by
  have h := C7_empty_noop curCopyFail dfDbEmpty mPlainUnique [] rfl fieldsOne
    (by intro p hp; simp only [fieldsOne, List.mem_singleton] at hp; rw [hp])
  exact ⟨h.1, h.2.2⟩

/-! # Claim C6 — ListColumn cell failures -/

/-- C6: the code contradicts the claim.  With the third cell (row position 2)
the only failing one, `run_child_validation` records the error under key `0`
— the index `idx = -1` is captured by value, so `i += 1` always yields 0 —
and raises a `ValidationError` for the whole column instead of removing only
the failing cell; a second failing cell merely overwrites the same key. -/
theorem C6_cell_error_key :
    run_child_validation false childRunEx [some ["x"], some ["y"], some ["bad"]] =
      .error [(0, ["invalid element"])] ∧
    run_child_validation false childRunEx [some ["bad"], some ["x"], some ["bad"]] =
      .error [(0, ["invalid element"])] :=
  ⟨rfl, rfl⟩

/-! # Claim C3 — ordered null policy of the Field -/

/-- C3: for a present column containing at least one null, exactly the
source's ordered policy applies — (1) with `replace_null` set every null is
substituted by it and no error is recorded; (2) else with `allow_null=False`
a `null` error is recorded and exactly the null rows are dropped (the
non-null rows are kept unchanged, in order); (3) else nulls pass through
unchanged with no error. -/
theorem C3_null_policy {α : Type} (f : Field α) (col : Series α)
    (hnull : col.any (fun p => p.2.isNone) = true) :
    (∀ r, f.replace_null = some r →
      f.validate_empty_values (some col) =
        .ok (false, col.map (fun p => (p.1, some (p.2.getD r))), [])) ∧
    (f.replace_null = none → f.allow_null = false →
      f.validate_empty_values (some col) =
        .ok (false, col.filter (fun p => p.2.isSome),
          ["This column cannot contain null values"])) ∧
    (f.replace_null = none → f.allow_null = true →
      f.validate_empty_values (some col) = .ok (false, col, [])) := by
  refine ⟨?_, ?_, ?_⟩
  · intro r hr
    simp only [Field.validate_empty_values]
    rw [hnull, hr]
    simp only [if_true, Option.isSome_some]
    have hmap : col.map (fun p => (p.1, p.2.orElse (fun _ => f.replace_null))) =
        col.map (fun p => (p.1, some (p.2.getD r))) := by
      apply List.map_congr_left
      intro p _
      cases hv : p.2 with
      | none => simp [Option.orElse, hr]
      | some v => simp [Option.orElse]
    rw [hr] at hmap
    rw [hmap]
  · intro h1 h2
    simp only [Field.validate_empty_values]
    rw [hnull, h1, h2]
    rfl
  · intro h1 h2
    simp only [Field.validate_empty_values]
    rw [hnull, h1, h2]
    rfl

/-- Witness for C3: a nullable integer column with `replace_null = 0` — the
null at row 1 is substituted, no error recorded. -/
theorem C3_null_policy_witness :
    Field.validate_empty_values ({ allow_null := true, replace_null := some 0 } : Field Int)
      (some [(0, some 1), (1, none)]) =
      .ok (false, [(0, some 1), (1, some 0)], []) :=
  (C3_null_policy ({ allow_null := true, replace_null := some 0 } : Field Int)
    [(0, some 1), (1, none)] (by decide)).1 0 rfl

/-! # Claim C1 — row-intersection invariant

The reconciliation loop of `to_internal_value` is shown to maintain `SerInv`:
while `df_valid` holds the frame under construction is indexed by exactly the
intersection of the processed columns' valid subsets, and once `df_valid`
falls the intersection is already empty. -/

theorem dfShape0_eq_idx {α : Type} (ret : DFrame α) :
    dfShape0 ret = (dfIndex ret).length := by
  cases ret with
  | nil => rfl
  | cons p tail => exact (seriesIdx_length p.2).symm

theorem dfIsEmpty_true_index {α : Type} (ret : DFrame α) (hne : ret ≠ [])
    (h : dfIsEmpty ret = true) : dfIndex ret = [] := by
  cases ret with
  | nil => exact absurd rfl hne
  | cons p tail =>
    have hlen : dfShape0 (p :: tail) = 0 := by
      have : ((p :: tail : DFrame α).isEmpty || (dfShape0 (p :: tail) == 0)) = true := h
      simpa using this
    have : p.2.length = 0 := hlen
    have hp2 : p.2 = [] := List.length_eq_zero.mp this
    show seriesIdx p.2 = []
    rw [hp2]
    rfl

theorem setCol_ne_nil {α : Type} (ret : DFrame α) (name : String) (s : Series α)
    (hne : ret ≠ []) :
    setCol ret name s = ret ++ [(name, alignTo (dfIndex ret) s)] := by
  cases ret with
  | nil => exact absurd rfl hne
  | cons p tail => rfl

theorem serStep_inv {α : Type} (n : Nat) (ps : List (List Nat)) (ret : DFrame α)
    (dfValid : Bool) (name : String) (validated : Series α)
    (hs : List.Sublist (seriesIdx validated) (List.range n))
    (hinv : SerInv n ps ret dfValid) :
    SerInv n (ps ++ [seriesIdx validated])
      (if ((if validated.isEmpty then false else dfValid) && !(dfIsEmpty ret) &&
          !(n == validated.length && validated.length == dfShape0 ret)) then
        joinInner ret name validated
      else setCol ret name validated)
      (if validated.isEmpty then false else dfValid) := by
  by_cases hemp : validated.isEmpty = true
  · have hv : validated = [] := List.isEmpty_iff.mp hemp
    constructor
    · intro habs
      rw [hemp] at habs
      simp at habs
    · intro _
      rw [canonInter_append, hv]
      simp [seriesIdx]
  · have hif : (if validated.isEmpty = true then false else dfValid) = dfValid :=
      if_neg hemp
    rw [hif]
    by_cases hdv : dfValid = true
    · subst hdv
      rcases hinv.1 rfl with ⟨hret, hps⟩ | ⟨hrne, hidx, hunif⟩
      · subst hret
        subst hps
        have hcond : (true && !(dfIsEmpty ([] : DFrame α)) &&
            !(n == validated.length && validated.length == dfShape0 ([] : DFrame α))) = false := by
          simp [dfIsEmpty]
        rw [hcond]
        simp only [Bool.false_eq_true, if_false]
        constructor
        · intro _
          right
          refine ⟨by simp [setCol], ?_, ?_⟩
          · rw [canonInter_append, canonInter_nil]
            show seriesIdx validated = _
            exact (filter_contains_of_sublist hs (List.nodup_range n)).symm
          · intro p hp
            have : p = (name, validated) := by simpa [setCol] using hp
            subst this
            rfl
        · intro habs
          cases habs
      · have hInod : (dfIndex ret).Nodup := by
          rw [hidx]
          exact (canonInter_sub n ps).nodup (List.nodup_range n)
        by_cases hre : dfIsEmpty ret = true
        · have hI : dfIndex ret = [] := dfIsEmpty_true_index ret hrne hre
          have hcond : (true && !(dfIsEmpty ret) &&
              !(n == validated.length && validated.length == dfShape0 ret)) = false := by
            rw [hre]
            simp
          rw [hcond]
          simp only [Bool.false_eq_true, if_false]
          rw [setCol_ne_nil ret name validated hrne]
          constructor
          · intro _
            right
            refine ⟨by simp, ?_, ?_⟩
            · rw [dfIndex_append_left ret _ hrne, canonInter_append, ← hidx, hI]
              rfl
            · intro p hp
              rw [dfIndex_append_left ret _ hrne]
              rcases List.mem_append.mp hp with hpl | hpr
              · exact hunif p hpl
              · have : p = (name, alignTo (dfIndex ret) validated) := by simpa using hpr
                subst this
                exact seriesIdx_alignTo _ _
          · intro habs
            cases habs
        · by_cases hnv : (n == validated.length && validated.length == dfShape0 ret) = true
          · have hlens : n = validated.length ∧ validated.length = dfShape0 ret := by
              simpa using hnv
            have hIlen : (dfIndex ret).length = n := by
              rw [← dfShape0_eq_idx, ← hlens.2, ← hlens.1]
            have hIfull : dfIndex ret = List.range n := by
              apply List.Sublist.eq_of_length
              · rw [hidx]; exact canonInter_sub n ps
              · rw [hIlen, List.length_range]
            have hsfull : seriesIdx validated = List.range n := by
              apply List.Sublist.eq_of_length hs
              rw [seriesIdx_length, ← hlens.1, List.length_range]
            have hcond : (true && !(dfIsEmpty ret) &&
                !(n == validated.length && validated.length == dfShape0 ret)) = false := by
              rw [hnv]
              simp
            rw [hcond]
            simp only [Bool.false_eq_true, if_false]
            rw [setCol_ne_nil ret name validated hrne]
            constructor
            · intro _
              right
              refine ⟨by simp, ?_, ?_⟩
              · rw [dfIndex_append_left ret _ hrne, canonInter_append, ← hidx]
                symm
                apply List.filter_eq_self.mpr
                intro i hi
                rw [hIfull] at hi
                rw [hsfull]
                simpa using hi
              · intro p hp
                rw [dfIndex_append_left ret _ hrne]
                rcases List.mem_append.mp hp with hpl | hpr
                · exact hunif p hpl
                · have : p = (name, alignTo (dfIndex ret) validated) := by simpa using hpr
                  subst this
                  exact seriesIdx_alignTo _ _
            · intro habs
              cases habs
          · have hreF : dfIsEmpty ret = false := Bool.eq_false_iff.mpr hre
            have hnvF : (n == validated.length && validated.length == dfShape0 ret) = false :=
              Bool.eq_false_iff.mpr hnv
            have hcond : (true && !(dfIsEmpty ret) &&
                !(n == validated.length && validated.length == dfShape0 ret)) = true := by
              rw [hreF, hnvF]
              rfl
            rw [hcond]
            simp only [if_true]
            unfold joinInner
            constructor
            · intro _
              right
              have hnewidx : ∀ q ∈ ret, seriesIdx (q.2.filter
                  (fun r => ((dfIndex ret).filter
                    (fun i => (seriesIdx validated).contains i)).contains r.1)) =
                  (dfIndex ret).filter (fun i => (seriesIdx validated).contains i) := by
                intro q hq
                rw [seriesIdx_filter, hunif q hq]
                exact filter_contains_of_sublist (List.filter_sublist _) hInod
              have hhead : dfIndex ((ret.map (fun p => (p.1, p.2.filter
                  (fun q => ((dfIndex ret).filter
                    (fun i => (seriesIdx validated).contains i)).contains q.1)))) ++
                  [(name, alignTo ((dfIndex ret).filter
                    (fun i => (seriesIdx validated).contains i)) validated)]) =
                  (dfIndex ret).filter (fun i => (seriesIdx validated).contains i) := by
                cases hr : ret with
                | nil => exact absurd hr hrne
                | cons q tail =>
                  show seriesIdx (q.2.filter _) = _
                  rw [← hr]
                  exact hnewidx q (by rw [hr]; exact List.mem_cons_self q tail)
              refine ⟨by simp, ?_, ?_⟩
              · rw [hhead, canonInter_append, ← hidx]
              · intro p hp
                rw [hhead]
                rcases List.mem_append.mp hp with hpl | hpr
                · obtain ⟨q, hq, hqe⟩ := List.mem_map.mp hpl
                  rw [← hqe]
                  exact hnewidx q hq
                · have : p = (name, alignTo ((dfIndex ret).filter
                      (fun i => (seriesIdx validated).contains i)) validated) := by
                    simpa using hpr
                  subst this
                  exact seriesIdx_alignTo _ _
            · intro habs
              cases habs
    · have hfalse : dfValid = false := Bool.eq_false_iff.mpr hdv
      subst hfalse
      constructor
      · intro habs
        cases habs
      · intro _
        rw [canonInter_append, hinv.2 rfl]
        rfl

theorem serLoop_inv {α : Type} (n : Nat) (df : DFrame α) :
    ∀ (fs : List (String × Field α)) (ps : List (List Nat)) (ret : DFrame α)
      (dfValid : Bool) (report : List (String × List String)),
      (∀ p ∈ fs, List.Sublist (fieldValidIdx df p) (List.range n)) →
      SerInv n ps ret dfValid →
      SerInv n (ps ++ fs.map (fieldValidIdx df))
        (serLoop n df fs ret dfValid report).1
        (serLoop n df fs ret dfValid report).2.1 := by
  intro fs
  induction fs with
  | nil =>
    intro ps ret dfValid report _ hinv
    rw [serLoop.eq_1]
    simpa using hinv
  | cons p rest ih =>
    intro ps ret dfValid report hsub hinv
    obtain ⟨name, f⟩ := p
    cases hrun : f.run_validation (get_value name df) with
    | error e =>
      obtain ⟨⟩ := e
      rw [serLoop_cons_err n df name f rest ret dfValid report hrun]
      have hidx0 : fieldValidIdx df (name, f) = [] := by
        simp [fieldValidIdx, hrun]
      have hinv' : SerInv n (ps ++ [[]]) ret false := by
        constructor
        · intro habs
          cases habs
        · intro _
          rw [canonInter_append]
          simp
      have hres := ih (ps ++ [[]]) ret false (report ++ [(name, [])])
        (fun q hq => hsub q (List.mem_cons_of_mem _ hq)) hinv'
      rw [List.map_cons, hidx0]
      rw [List.append_assoc] at hres
      exact hres
    | ok out =>
      obtain ⟨validated, ferrs⟩ := out
      rw [serLoop_cons_ok n df name f rest ret dfValid report validated ferrs hrun]
      have hidxv : fieldValidIdx df (name, f) = seriesIdx validated := by
        simp [fieldValidIdx, hrun]
      have hs : List.Sublist (seriesIdx validated) (List.range n) := by
        rw [← hidxv]
        exact hsub (name, f) (List.mem_cons_self _ _)
      have hstep := serStep_inv n ps ret dfValid name validated hs hinv
      have hres := ih (ps ++ [seriesIdx validated]) _ _
        (report ++ (if ferrs.isEmpty then [] else [(name, ferrs)]))
        (fun q hq => hsub q (List.mem_cons_of_mem _ hq)) hstep
      rw [List.map_cons, hidxv]
      rw [List.append_assoc] at hres
      exact hres

/-- C1: for a raw dataframe carrying all declared columns (each indexed by
`range n`, the pandas shape of the input), the row count of the dataframe
returned by `to_internal_value` equals the number of row positions that
survive every declared column's validation — the length of the intersection
of the per-column valid subsets.  The sublist hypothesis states what every
field pipeline in the source does: it only ever drops rows of its input
column, never invents or duplicates row positions. -/
theorem C1_row_intersection {α : Type} (fields : List (String × Field α))
    (df : DFrame α) (hne : fields ≠ [])
    (hsub : ∀ p ∈ fields,
      List.Sublist (fieldValidIdx df p) (List.range (dfShape0 df))) :
    dfShape0 (to_internal_value fields df).1 =
      (canonInter (dfShape0 df) (fields.map (fieldValidIdx df))).length := by
  have hbase : SerInv (dfShape0 df) [] ([] : DFrame α) true := by
    constructor
    · intro _
      left
      exact ⟨rfl, rfl⟩
    · intro habs
      cases habs
  have hinv := serLoop_inv (dfShape0 df) df fields [] [] true [] hsub hbase
  rw [List.nil_append] at hinv
  have hfst : (to_internal_value fields df).1 =
      (if (serLoop (dfShape0 df) df fields [] true []).2.1 then
        (serLoop (dfShape0 df) df fields [] true []).1 else []) := rfl
  rw [hfst]
  cases hval : (serLoop (dfShape0 df) df fields [] true []).2.1 with
  | false =>
    rw [hval] at hinv
    rw [hinv.2 rfl]
    simp only [Bool.false_eq_true, if_false, List.length_nil]
    rfl
  | true =>
    rw [hval] at hinv
    rcases hinv.1 rfl with ⟨_, hmapnil⟩ | ⟨_, hidx, _⟩
    · exact absurd (List.map_eq_nil_iff.mp hmapnil) hne
    · simp only [if_true]
      rw [dfShape0_eq_idx, hidx]

/-! # Claim C8 — idempotence of re-validation

Field-level groundwork: a clean validator pass leaves the value unchanged
with all predicates satisfied, and a clean `run_validation` factors into a
null-policy step, the coercion, and the validators, each error-free. -/

theorem runValidatorList_noerr {α : Type} :
    ∀ (vs : List (PValidator α)) (v : Series α),
      (runValidatorList vs v).2 = [] →
      runValidatorList vs v = (v, []) ∧
      ∀ u ∈ vs, v.all (fun p => u.pred p.2) = true := by
  intro vs
  induction vs with
  | nil => intro v _; exact ⟨rfl, by intro u hu; cases hu⟩
  | cons w rest ih =>
    intro v h
    by_cases hall : v.all (fun p => w.pred p.2) = true
    · rw [runValidatorList, if_pos hall] at h ⊢
      obtain ⟨h1, h2⟩ := ih v h
      refine ⟨h1, ?_⟩
      intro u hu
      rcases List.mem_cons.mp hu with rfl | hu2
      · exact hall
      · exact h2 u hu2
    · exfalso
      rw [runValidatorList, if_neg hall] at h
      simp at h

theorem runValidatorList_clean {α : Type} :
    ∀ (vs : List (PValidator α)) (v : Series α),
      (∀ u ∈ vs, v.all (fun p => u.pred p.2) = true) →
      runValidatorList vs v = (v, []) := by
  intro vs
  induction vs with
  | nil => intro v _; rfl
  | cons w rest ih =>
    intro v h
    rw [runValidatorList, if_pos (h w (List.mem_cons_self w rest))]
    exact ih v (fun u hu => h u (List.mem_cons_of_mem _ hu))

/-- Exhaustive case analysis of `validate_empty_values` on a present column,
mirroring the branch structure of fields.py:82-95. -/
theorem vev_some_cases {α : Type} (f : Field α) (c : Series α) :
    (c.any (fun p => p.2.isNone) = false ∧
      f.validate_empty_values (some c) = .ok (false, c, [])) ∨
    ((∃ r, f.replace_null = some r) ∧
      f.validate_empty_values (some c) =
        .ok (false, c.map (fun p => (p.1, p.2.orElse (fun _ => f.replace_null))), [])) ∨
    (c.any (fun p => p.2.isNone) = true ∧ f.replace_null = none ∧ f.allow_null = false ∧
      f.validate_empty_values (some c) =
        .ok (false, c.filter (fun p => p.2.isSome),
          ["This column cannot contain null values"])) ∨
    (c.any (fun p => p.2.isNone) = true ∧ f.replace_null = none ∧ f.allow_null = true ∧
      f.validate_empty_values (some c) = .ok (false, c, [])) := by
  by_cases hany : c.any (fun p => p.2.isNone) = true
  · cases hrn : f.replace_null with
    | some r =>
      refine Or.inr (Or.inl ⟨⟨r, rfl⟩, ?_⟩)
      simp only [Field.validate_empty_values]
      rw [hany, hrn]
      simp
    | none =>
      cases han : f.allow_null with
      | false =>
        refine Or.inr (Or.inr (Or.inl ⟨hany, rfl, rfl, ?_⟩))
        simp only [Field.validate_empty_values]
        rw [hany, hrn, han]
        rfl
      | true =>
        refine Or.inr (Or.inr (Or.inr ⟨hany, rfl, rfl, ?_⟩))
        simp only [Field.validate_empty_values]
        rw [hany, hrn, han]
        rfl
  · have hf : c.any (fun p => p.2.isNone) = false := Bool.eq_false_iff.mpr hany
    refine Or.inl ⟨hf, ?_⟩
    simp only [Field.validate_empty_values]
    rw [hf]
    rfl

/-- `run_validation` on a present column, given the shape of the null-policy
step. -/
theorem frv_some_decompose {α : Type} (f : Field α) (c data : Series α)
    (errs0 : List String)
    (hvev : f.validate_empty_values (some c) = .ok (false, data, errs0)) :
    f.run_validation (some c) =
      .ok ((runValidatorList f.validators (f.toInternal data).1).1,
        errs0 ++ (f.toInternal data).2 ++
          (runValidatorList f.validators (f.toInternal data).1).2) := by
  unfold Field.run_validation
  rw [hvev]

theorem all_isSome_any_isNone {α : Type} (c : Series α)
    (h : c.all (fun p => p.2.isSome) = true) :
    c.any (fun p => p.2.isNone) = false := by
  rw [List.any_eq_false]
  intro p hp
  have hs := List.all_eq_true.mp h p hp
  cases hv : p.2 with
  | none => rw [hv] at hs; cases hs
  | some v => simp [hv]

theorem fillna_all_isSome {α : Type} (c : Series α) (rn : Option α) (r : α)
    (hr : rn = some r) :
    (c.map (fun p => (p.1, p.2.orElse (fun _ => rn)))).all
      (fun p => p.2.isSome) = true := by
  rw [List.all_eq_true]
  intro q hq
  obtain ⟨p, _, rfl⟩ := List.mem_map.mp hq
  cases hv : p.2 with
  | none => simp [Option.orElse, hr]
  | some v => simp [Option.orElse]

/-- The anatomy of a clean field run: the null-policy output `data`, the
coercion output (which is the final value), with every stage error-free and
every validator satisfied on the result. -/
theorem field_clean_anatomy {α : Type} (f : Field α) (c c2 : Series α)
    (h : f.run_validation (some c) = .ok (c2, [])) :
    ∃ data errs0, f.validate_empty_values (some c) = .ok (false, data, errs0) ∧
      errs0 = [] ∧
      f.toInternal data = (c2, []) ∧
      (∀ u ∈ f.validators, c2.all (fun p => u.pred p.2) = true) := by
  have hshape : ∃ data errs0,
      f.validate_empty_values (some c) = .ok (false, data, errs0) := by
    rcases vev_some_cases f c with ⟨_, hv⟩ | ⟨_, hv⟩ | ⟨_, _, _, hv⟩ | ⟨_, _, _, hv⟩ <;>
      exact ⟨_, _, hv⟩
  obtain ⟨data, errs0, hvev⟩ := hshape
  have hd := frv_some_decompose f c data errs0 hvev
  rw [h] at hd
  have hpair : ((runValidatorList f.validators (f.toInternal data).1).1,
      errs0 ++ (f.toInternal data).2 ++
        (runValidatorList f.validators (f.toInternal data).1).2) = (c2, []) :=
    (Except.ok.inj hd).symm
  have hc2 : (runValidatorList f.validators (f.toInternal data).1).1 = c2 :=
    congrArg Prod.fst hpair
  have herrs : errs0 ++ (f.toInternal data).2 ++
      (runValidatorList f.validators (f.toInternal data).1).2 = [] :=
    congrArg Prod.snd hpair
  obtain ⟨h01, h2⟩ := List.append_eq_nil.mp herrs
  obtain ⟨h0, h1⟩ := List.append_eq_nil.mp h01
  obtain ⟨hrv, hall⟩ := runValidatorList_noerr f.validators (f.toInternal data).1 h2
  have hv1 : (f.toInternal data).1 = c2 := by
    rw [hrv] at hc2
    exact hc2
  have hti : f.toInternal data = (c2, []) := by
    rw [← hv1, ← h1]
  refine ⟨data, errs0, hvev, h0, hti, ?_⟩
  intro u hu
  have := hall u hu
  rw [hv1] at this
  exact this

/-- With a well-behaved coercion, a clean run preserves the row index. -/
theorem field_noerr_idx {α : Type} (f : Field α) (c c2 : Series α)
    (hco : CoercionOk f) (h : f.run_validation (some c) = .ok (c2, [])) :
    seriesIdx c2 = seriesIdx c := by
  obtain ⟨data, errs0, hvev, h0, hti, _⟩ := field_clean_anatomy f c c2 h
  have hidx1 : seriesIdx c2 = seriesIdx data := by
    have := hco.1 data (by rw [hti])
    rw [hti] at this
    exact this
  have hidx2 : seriesIdx data = seriesIdx c := by
    rcases vev_some_cases f c with ⟨-, hv⟩ | ⟨-, hv⟩ | ⟨-, -, -, hv⟩ | ⟨-, -, -, hv⟩
    · rw [hvev] at hv
      have hdc : data = c := congrArg (fun t => t.2.1) (Except.ok.inj hv)
      rw [hdc]
    · rw [hvev] at hv
      have hdc : data = c.map (fun p => (p.1, p.2.orElse (fun _ => f.replace_null))) :=
        congrArg (fun t => t.2.1) (Except.ok.inj hv)
      rw [hdc]
      exact seriesIdx_map_vals c _
    · rw [hvev] at hv
      have hde : errs0 = ["This column cannot contain null values"] :=
        congrArg (fun t => t.2.2) (Except.ok.inj hv)
      rw [h0] at hde
      cases hde
    · rw [hvev] at hv
      have hdc : data = c := congrArg (fun t => t.2.1) (Except.ok.inj hv)
      rw [hdc]
  rw [hidx1, hidx2]

/-- Field-level idempotence: a cleanly validated column re-validates to
itself with no errors (fields.py:97-112 re-entered on its own output). -/
theorem field_idem {α : Type} (f : Field α) (c c2 : Series α)
    (hco : CoercionOk f) (h : f.run_validation (some c) = .ok (c2, [])) :
    f.run_validation (some c2) = .ok (c2, []) := by
  obtain ⟨data, errs0, hvev, h0, hti, hall⟩ := field_clean_anatomy f c c2 h
  have hti2 : f.toInternal c2 = (c2, []) := hco.2.1 data c2 hti
  have hvev2 : f.validate_empty_values (some c2) = .ok (false, c2, []) := by
    by_cases hany : c2.any (fun p => p.2.isNone) = true
    · rcases vev_some_cases f c with ⟨hn0, hv⟩ | ⟨⟨r, hr⟩, hv⟩ | ⟨-, -, -, hv⟩ | ⟨-, hrn, han, hv⟩
      · exfalso
        rw [hvev] at hv
        have hdc : data = c := congrArg (fun t => t.2.1) (Except.ok.inj hv)
        have hcall : c.all (fun p => p.2.isSome) = true := by
          rw [List.all_eq_true]
          intro p hp
          have hnn := List.any_eq_false.mp hn0 p hp
          cases hv2 : p.2 with
          | none => rw [hv2] at hnn; exact absurd rfl hnn
          | some v => simp [hv2]
        have hsome : c2.all (fun p => p.2.isSome) = true :=
          hco.2.2 data c2 hti (hdc ▸ hcall)
        rw [all_isSome_any_isNone c2 hsome] at hany
        cases hany
      · exfalso
        rw [hvev] at hv
        have hdc : data = c.map (fun p => (p.1, p.2.orElse (fun _ => f.replace_null))) :=
          congrArg (fun t => t.2.1) (Except.ok.inj hv)
        have hsome : c2.all (fun p => p.2.isSome) = true :=
          hco.2.2 data c2 hti (hdc ▸ fillna_all_isSome c f.replace_null r hr)
        rw [all_isSome_any_isNone c2 hsome] at hany
        cases hany
      · exfalso
        rw [hvev] at hv
        have hde : errs0 = ["This column cannot contain null values"] :=
          congrArg (fun t => t.2.2) (Except.ok.inj hv)
        rw [h0] at hde
        cases hde
      · simp only [Field.validate_empty_values]
        rw [hany, hrn, han]
        rfl
    · have hf : c2.any (fun p => p.2.isNone) = false := Bool.eq_false_iff.mpr hany
      simp only [Field.validate_empty_values]
      rw [hf]
      rfl
  have hd := frv_some_decompose f c2 c2 [] hvev2
  rw [hti2] at hd
  rw [runValidatorList_clean f.validators c2 hall] at hd
  simpa using hd

/-- Witness for C1: two default integer fields over a three-row input whose
column `a` has a null at row 1 — the validated dataframe has 2 rows, the size
of the intersection `[0, 2] ∩ [0, 1, 2]`. -/
theorem C1_row_intersection_witness :
    dfShape0 (to_internal_value fieldsAB dfAB).1 =
      (canonInter (dfShape0 dfAB) (fieldsAB.map (fieldValidIdx dfAB))).length := by
  apply C1_row_intersection fieldsAB dfAB
  · intro h
    simp [fieldsAB] at h
  · intro p hp
    have hp' : p = ("a", ({} : Field Int)) ∨ p = ("b", ({} : Field Int)) := by
      simpa [fieldsAB] using hp
    rcases hp' with rfl | rfl
    · show List.Sublist (fieldValidIdx dfAB ("a", ({} : Field Int))) (List.range 3)
      have : fieldValidIdx dfAB ("a", ({} : Field Int)) = [0, 2] := rfl
      rw [this]
      decide
    · show List.Sublist (fieldValidIdx dfAB ("b", ({} : Field Int))) (List.range 3)
      have : fieldValidIdx dfAB ("b", ({} : Field Int)) = [0, 1, 2] := rfl
      rw [this]
      decide

/-! Serializer-level machinery for C8: a run in which every field validates
cleanly onto the full index assembles the columns in order, and an empty
final report forces every per-field error list to be empty. -/

theorem serLoop_clean {α : Type} (n : Nat) (df : DFrame α) (hn : 0 < n) :
    ∀ (fs : List (String × Field α)) (ret : DFrame α)
      (report : List (String × List String)),
      (∀ p ∈ fs, p.2.run_validation (get_value p.1 df) = .ok (fieldCleanOut df p, []) ∧
        seriesIdx (fieldCleanOut df p) = List.range n) →
      (ret = [] ∨ (ret ≠ [] ∧ dfIndex ret = List.range n ∧ dfShape0 ret = n)) →
      serLoop n df fs ret true report =
        (ret ++ fs.map (fun p => (p.1, fieldCleanOut df p)), true, report) := by
  intro fs
  induction fs with
  | nil =>
    intro ret report _ _
    rw [serLoop.eq_1]
    simp
  | cons p rest ih =>
    intro ret report hgood hret
    obtain ⟨name, f⟩ := p
    obtain ⟨hrun, hidx⟩ := hgood (name, f) (List.mem_cons_self _ _)
    have hlen : (fieldCleanOut df (name, f)).length = n := by
      rw [← seriesIdx_length, hidx, List.length_range]
    have hne : fieldCleanOut df (name, f) ≠ [] := by
      intro habs
      rw [habs] at hlen
      rw [← hlen] at hn
      simp at hn
    have hemp : (fieldCleanOut df (name, f)).isEmpty = false := by
      rw [Bool.eq_false_iff]
      intro habs
      exact hne (List.isEmpty_iff.mp habs)
    rw [serLoop_cons_ok n df name f rest ret true report (fieldCleanOut df (name, f)) [] hrun]
    rw [hemp]
    simp only [Bool.false_eq_true, if_false, List.isEmpty_nil, if_true, List.append_nil]
    rcases hret with hret | ⟨hrne, hretidx, hretshape⟩
    · subst hret
      have hcond : (true && !(dfIsEmpty ([] : DFrame α)) &&
          !(n == (fieldCleanOut df (name, f)).length &&
            (fieldCleanOut df (name, f)).length == dfShape0 ([] : DFrame α))) = false := by
        simp [dfIsEmpty]
      rw [hcond]
      simp only [Bool.false_eq_true, if_false]
      have hstep := ih [(name, fieldCleanOut df (name, f))] report
        (fun q hq => hgood q (List.mem_cons_of_mem _ hq))
        (Or.inr ⟨by simp, by show seriesIdx _ = _; exact hidx, by show List.length _ = n; exact hlen⟩)
      show serLoop n df rest (setCol [] name (fieldCleanOut df (name, f))) true report = _
      rw [show setCol ([] : DFrame α) name (fieldCleanOut df (name, f)) =
        [(name, fieldCleanOut df (name, f))] from rfl]
      rw [hstep]
      simp
    · have hcond : (true && !(dfIsEmpty ret) &&
          !(n == (fieldCleanOut df (name, f)).length &&
            (fieldCleanOut df (name, f)).length == dfShape0 ret)) = false := by
        rw [hlen, hretshape]
        simp
      rw [hcond]
      simp only [Bool.false_eq_true, if_false]
      rw [setCol_ne_nil ret name _ hrne]
      have halign : alignTo (dfIndex ret) (fieldCleanOut df (name, f)) =
          fieldCleanOut df (name, f) := by
        rw [hretidx, ← hidx]
        exact alignTo_self _ (by rw [hidx]; exact List.nodup_range n)
      rw [halign]
      have hstep := ih (ret ++ [(name, fieldCleanOut df (name, f))]) report
        (fun q hq => hgood q (List.mem_cons_of_mem _ hq))
        (Or.inr ⟨by simp, ?_, ?_⟩)
      · rw [hstep, List.append_assoc]
        rfl
      · rw [dfIndex_append_left ret _ hrne]
        exact hretidx
      · rw [dfShape0_append_left ret _ hrne]
        exact hretshape

theorem serLoop_report_nil {α : Type} (n : Nat) (df : DFrame α) :
    ∀ (fs : List (String × Field α)) (ret : DFrame α) (dfValid : Bool)
      (report : List (String × List String)),
      (serLoop n df fs ret dfValid report).2.2 = [] →
      report = [] ∧
      ∀ p ∈ fs, ∃ c2, p.2.run_validation (get_value p.1 df) = .ok (c2, []) := by
  intro fs
  induction fs with
  | nil =>
    intro ret dfValid report h
    rw [serLoop.eq_1] at h
    exact ⟨h, by intro p hp; cases hp⟩
  | cons p rest ih =>
    intro ret dfValid report h
    obtain ⟨name, f⟩ := p
    cases hrun : f.run_validation (get_value name df) with
    | error e =>
      obtain ⟨⟩ := e
      rw [serLoop_cons_err n df name f rest ret dfValid report hrun] at h
      obtain ⟨hrep, -⟩ := ih _ _ _ h
      simp at hrep
    | ok out =>
      obtain ⟨validated, ferrs⟩ := out
      rw [serLoop_cons_ok n df name f rest ret dfValid report validated ferrs hrun] at h
      obtain ⟨hrep, hrest⟩ := ih _ _ _ h
      by_cases hfe : ferrs.isEmpty = true
      · have hferrs : ferrs = [] := List.isEmpty_iff.mp hfe
        rw [hfe] at hrep
        simp only [if_true, List.append_nil] at hrep
        refine ⟨hrep, ?_⟩
        intro q hq
        rcases List.mem_cons.mp hq with rfl | hq2
        · exact ⟨validated, by rw [hrun, hferrs]⟩
        · exact hrest q hq2
      · exfalso
        have : ferrs.isEmpty = false := Bool.eq_false_iff.mpr hfe
        rw [this] at hrep
        simp at hrep

theorem get_value_map_outs {α : Type} (g : String × Field α → Series α) :
    ∀ (l : List (String × Field α)) (p : String × Field α),
      (l.map Prod.fst).Nodup → p ∈ l →
      get_value p.1 (l.map (fun q => (q.1, g q))) = some (g p) := by
  intro l
  induction l with
  | nil => intro p _ hp; cases hp
  | cons q rest ih =>
    intro p hnod hp
    rw [List.map_cons] at hnod
    obtain ⟨hqn, hrnod⟩ := List.nodup_cons.mp hnod
    rcases List.mem_cons.mp hp with heq | hp2
    · rw [heq]
      simp only [get_value, List.map_cons, List.find?_cons]
      simp
    · have hne : (q.1 == p.1) = false := by
        have : q.1 ≠ p.1 := by
          intro habs
          exact hqn (habs ▸ List.mem_map_of_mem Prod.fst hp2)
        simpa using this
      simp only [get_value, List.map_cons, List.find?_cons, hne]
      simpa [get_value] using ih p hrnod hp2

/-- C8 counterexample: a zero-row dataset carrying its declared (required)
column validates cleanly — empty report — to the column-less empty frame, but
re-validating that validated frame reports a `required` error for the now
missing column, so re-validation does not yield an empty ErrorReport. -/
theorem C8_idempotence_counterexample :
    to_internal_value fieldsOne [("a", ([] : Series Int))] = ([], []) ∧
    (to_internal_value fieldsOne ([] : DFrame Int)).2 =
      [("a", ["This column is required"])] :=
  ⟨rfl, rfl⟩

/-- C8 as amended: for a dataset with at least one row, all declared columns
present in the raw input (each indexed by the full `range n`), distinct field
names and well-behaved coercions, a clean validation run — result `(V, [])`
with an empty ErrorReport — re-validates to the identical dataset `V` with an
empty ErrorReport.  (The zero-row case fails: see the counterexample.) -/
theorem C8_idempotence {α : Type} (fields : List (String × Field α))
    (df V : DFrame α) (hne : fields ≠ [])
    (hnames : (fields.map Prod.fst).Nodup)
    (hn : 0 < dfShape0 df)
    (hcols : ∀ p ∈ fields, ∃ c, get_value p.1 df = some c ∧
      seriesIdx c = List.range (dfShape0 df))
    (hco : ∀ p ∈ fields, CoercionOk p.2)
    (hrun : to_internal_value fields df = (V, [])) :
    to_internal_value fields V = (V, []) := by
  have hrep : (serLoop (dfShape0 df) df fields [] true []).2.2 = [] := by
    have h2 : (to_internal_value fields df).2 =
        (serLoop (dfShape0 df) df fields [] true []).2.2 := rfl
    rw [hrun] at h2
    exact h2.symm
  obtain ⟨-, hok⟩ := serLoop_report_nil (dfShape0 df) df fields [] true [] hrep
  have hgood : ∀ p ∈ fields,
      p.2.run_validation (get_value p.1 df) = .ok (fieldCleanOut df p, []) ∧
      seriesIdx (fieldCleanOut df p) = List.range (dfShape0 df) := by
    intro p hp
    obtain ⟨c2, hc2⟩ := hok p hp
    have hout : fieldCleanOut df p = c2 := by
      simp [fieldCleanOut, hc2]
    obtain ⟨c, hcv, hcidx⟩ := hcols p hp
    constructor
    · rw [hout]
      exact hc2
    · rw [hout]
      rw [hcv] at hc2
      rw [field_noerr_idx p.2 c c2 (hco p hp) hc2, hcidx]
  have hassemble := serLoop_clean (dfShape0 df) df hn fields [] [] hgood (Or.inl rfl)
  have hV : V = fields.map (fun p => (p.1, fieldCleanOut df p)) := by
    have h1 : (to_internal_value fields df).1 =
        (if (serLoop (dfShape0 df) df fields [] true []).2.1 = true then
          (serLoop (dfShape0 df) df fields [] true []).1 else []) := rfl
    rw [hrun] at h1
    rw [hassemble] at h1
    simpa using h1
  have hVshape : dfShape0 V = dfShape0 df := by
    cases hf : fields with
    | nil => exact absurd hf hne
    | cons p rest =>
      have hidx := (hgood p (by rw [hf]; exact List.mem_cons_self p rest)).2
      rw [hV, hf]
      show (fieldCleanOut df p).length = dfShape0 df
      rw [← seriesIdx_length, hidx, List.length_range]
  have hgv : ∀ p ∈ fields, get_value p.1 V = some (fieldCleanOut df p) := by
    intro p hp
    rw [hV]
    exact get_value_map_outs (fieldCleanOut df) fields p hnames hp
  have hidem : ∀ p ∈ fields,
      p.2.run_validation (some (fieldCleanOut df p)) =
        .ok (fieldCleanOut df p, []) := by
    intro p hp
    obtain ⟨c, hcv, hcidx⟩ := hcols p hp
    have h1 := (hgood p hp).1
    rw [hcv] at h1
    exact field_idem p.2 c (fieldCleanOut df p) (hco p hp) h1
  have houtV : ∀ p ∈ fields, fieldCleanOut V p = fieldCleanOut df p := by
    intro p hp
    have hlhs : fieldCleanOut V p =
        (match p.2.run_validation (get_value p.1 V) with
          | .ok r => r.1
          | .error _ => ([] : Series α)) := rfl
    rw [hlhs, hgv p hp, hidem p hp]
  have hgood2 : ∀ p ∈ fields,
      p.2.run_validation (get_value p.1 V) = .ok (fieldCleanOut V p, []) ∧
      seriesIdx (fieldCleanOut V p) = List.range (dfShape0 V) := by
    intro p hp
    rw [houtV p hp, hgv p hp, hVshape]
    exact ⟨hidem p hp, (hgood p hp).2⟩
  have hn2 : 0 < dfShape0 V := by
    rw [hVshape]
    exact hn
  have hassemble2 := serLoop_clean (dfShape0 V) V hn2 fields [] [] hgood2 (Or.inl rfl)
  have hmap : fields.map (fun p => (p.1, fieldCleanOut V p)) =
      fields.map (fun p => (p.1, fieldCleanOut df p)) := by
    apply List.map_congr_left
    intro p hp
    rw [houtV p hp]
  have heta : to_internal_value fields V =
      ((to_internal_value fields V).1, (to_internal_value fields V).2) := rfl
  have hfinal1 : (to_internal_value fields V).1 =
      (if (serLoop (dfShape0 V) V fields [] true []).2.1 = true then
        (serLoop (dfShape0 V) V fields [] true []).1 else []) := rfl
  have hfinal2 : (to_internal_value fields V).2 =
      (serLoop (dfShape0 V) V fields [] true []).2.2 := rfl
  rw [heta, hfinal1, hfinal2, hassemble2]
  simp only [if_true]
  rw [List.nil_append, hmap, ← hV]

/-- Witness for the amended C8: one default integer field over a clean
one-row input — re-validating the validated dataset returns it unchanged
with an empty report. -/
theorem C8_idempotence_witness :
    to_internal_value fieldsOne dfOne = (dfOne, []) := by
  have hco : ∀ p ∈ fieldsOne, CoercionOk p.2 := by
    intro p hp
    have hp2 : p = ("a", ({} : Field Int)) := by
      simpa [fieldsOne] using hp
    subst hp2
    refine ⟨fun c h => rfl, fun c c2 h => ?_, fun c c2 h hall => ?_⟩
    · injection h with h1 h2
      rw [← h1]
    · injection h with h1 h2
      rw [← h1]
      exact hall
  apply C8_idempotence fieldsOne dfOne dfOne
  · intro h
    simp [fieldsOne] at h
  · decide
  · decide
  · intro p hp
    have hp2 : p = ("a", ({} : Field Int)) := by
      simpa [fieldsOne] using hp
    subst hp2
    exact ⟨[(0, some 5)], rfl, by decide⟩
  · exact hco
  · rfl

end Pandasio
